import Mathlib

/-!
Verification development for the calculator server in
src/calculator_mcp/server.py.

The Python source is shallowly embedded here:
* Python strings are modelled as `Chars := List Char`.
* Python floats are modelled as exact rationals (`ℚ`).  All numeric
  computations exercised by the theorems below stay inside the subset of
  doubles on which IEEE-754 arithmetic is exact, so the model agrees with
  the source there.  Transcendental library functions (sin, cos, tan, log,
  log10) and irrational square roots have no exact rational value; the
  embedding maps them to an explicit `CalcError.fnError`/`notModeled`
  outcome, and no theorem in this file depends on them.
* Exceptions are modelled with `Except CalcError`; each `raise` site of the
  source gets its own `CalcError` constructor, and the `try/except` blocks
  of the source become the corresponding error-outcome constructions.
* `datetime.now()` timestamps and the human-readable `steps` strings are
  not modelled: they carry no computational content that any claim
  mentions.
-/

abbrev Chars := List Char

def toL (s : String) : Chars := s.toList

/-- Python `str.strip` whitespace set (space, tab, newline, CR, VT, FF). -/
def isPyWs (c : Char) : Bool :=
  c = ' ' || c = '\t' || c = '\n' || c = '\r' || c = Char.ofNat 11 || c = Char.ofNat 12

/-- Regex word character class `\w` restricted to ASCII, as used by the
source's statistics-call pattern. -/
def isWordChar (c : Char) : Bool := c.isAlpha || c.isDigit || c = '_'

def isIdentStart (c : Char) : Bool := c.isAlpha || c = '_'

def isIdentCont (c : Char) : Bool := c.isAlpha || c.isDigit || c = '_'

/-- The single-quote character, written via its code point. -/
def sqChar : Char := Char.ofNat 39

/-- Boolean test that `p` is a prefix of `s`. -/
def startsWith : Chars → Chars → Bool
  | [], _ => true
  | _ :: _, [] => false
  | a :: ps, b :: rest => a = b && startsWith ps rest

/-- Python's substring containment test (`p in s` for strings). -/
def hasSub (p : Chars) : Chars → Bool
  | [] => p.isEmpty
  | c :: t => startsWith p (c :: t) || hasSub p t

/-- Python `str.strip()`: drop whitespace from both ends. -/
def trim (s : Chars) : Chars :=
  ((s.dropWhile isPyWs).reverse.dropWhile isPyWs).reverse

/-- Python `str.replace(pat, repl)`: left-to-right non-overlapping
replacement, fueled (each step consumes at least one character).  The
source never calls it with an empty pattern. -/
def replaceAllGo (pat repl : Chars) : ℕ → Chars → Chars
  | 0, s => s
  | _ + 1, [] => []
  | f + 1, c :: r =>
    if startsWith pat (c :: r) then repl ++ replaceAllGo pat repl f ((c :: r).drop pat.length)
    else c :: replaceAllGo pat repl f r

def replaceAll (s pat repl : Chars) : Chars :=
  if pat.isEmpty then s else replaceAllGo pat repl s.length s

/-- Python `str.split(sep)` for a single-character separator. -/
def splitOnChar (sep : Char) : Chars → List Chars
  | [] => [[]]
  | c :: r =>
    if c = sep then [] :: splitOnChar sep r
    else
      match splitOnChar sep r with
      | [] => [[c]]
      | h :: t => (c :: h) :: t

/-- Python `re.split(r'([+-])', s)`: split at every sign character, keeping
the separators as their own list entries. -/
def splitKeepSigns : Chars → List Chars
  | [] => [[]]
  | c :: r =>
    if c = '+' || c = '-' then
      [] :: [c] :: splitKeepSigns r
    else
      match splitKeepSigns r with
      | [] => [[c]]
      | h :: t => (c :: h) :: t

/-- Greedy digit span `\d*`: the maximal digit prefix and the rest. -/
def spanDigits (s : Chars) : Chars × Chars :=
  (s.takeWhile Char.isDigit, s.dropWhile Char.isDigit)

def digitVal (c : Char) : ℕ := c.toNat - '0'.toNat

def digitsVal (ds : Chars) : ℕ := ds.foldl (fun a c => a * 10 + digitVal c) 0

def digitChar (n : ℕ) : Char := Char.ofNat ('0'.toNat + n)

/-- Decimal rendering of a natural number (fueled quotient recursion so that
it reduces definitionally). -/
def natStrGo : ℕ → ℕ → Chars
  | 0, _ => []
  | f + 1, n => if n < 10 then [digitChar n] else natStrGo f (n / 10) ++ [digitChar (n % 10)]

def natStr (n : ℕ) : Chars := natStrGo (n + 1) n

/-- Decimal rendering of an integer, as Python `str`/f-strings produce it:
a leading '-' for negatives and no sign otherwise. -/
def intStr (i : ℤ) : Chars := if i < 0 then '-' :: natStr i.natAbs else natStr i.natAbs

/-- Sign reader shared by the float parser and the regex model. -/
def readSign : Chars → (Bool × Chars)
  | '+' :: r => (false, r)
  | '-' :: r => (true, r)
  | s => (false, s)

def fracVal (ds : Chars) : ℚ := (digitsVal ds : ℚ) / ((10 : ℚ) ^ ds.length)

def applySign (neg : Bool) (m : ℚ) : ℚ := if neg then -m else m

/-- Exponent suffix of a Python float literal (`e`/`E`, optional sign,
digits), applied to an already parsed mantissa.  Returns `none` unless the
remainder is empty. -/
def parseFloatExp (neg : Bool) (m : ℚ) : Chars → Option ℚ
  | [] => some (applySign neg m)
  | c :: r =>
    if c = 'e' || c = 'E' then
      let (eneg, r1) := readSign r
      let (ed, r2) := spanDigits r1
      if ed.isEmpty || !r2.isEmpty then none
      else some (applySign neg m * (10 : ℚ) ^ (if eneg then -(digitsVal ed : ℤ) else (digitsVal ed : ℤ)))
    else none

/-- Python `float(str)` on the grammar the source can feed it: optional
surrounding whitespace, optional sign, digits with an optional decimal
point, optional exponent.  The special spellings `inf`/`nan` and digit
underscores are outside the exact rational fragment and yield `none`;
no input arising in the claims uses them. -/
def parseFloat (s : Chars) : Option ℚ :=
  if (trim s).isEmpty then none
  else
    match readSign (trim s) with
    | (neg, t1) =>
      match spanDigits t1 with
      | (ip, t2) =>
        match t2 with
        | '.' :: r2 =>
          match spanDigits r2 with
          | (fp, t3) =>
            if ip.isEmpty && fp.isEmpty then none
            else parseFloatExp neg ((digitsVal ip : ℚ) + fracVal fp) t3
        | _ =>
          if ip.isEmpty then none
          else parseFloatExp neg (digitsVal ip : ℚ) t2

/-! ## Result data model

`UnifiedCalculationResult` (server.py:90) carries an operation tag, the
original expression, a result that is a float or a list, optional input
data, optional nested batch results and an optional error.  Error
outcomes in the source set `operation="error"`, `result=float('nan')` and
a message; the message text is modelled by a structured `CalcError`. -/

inductive RVal where
  | num (q : ℚ)
  | nan
  | listv (l : List RVal)

/-- One constructor per distinct `raise`/failure site of the source. -/
inductive CalcError where
  | divZero
  | constType
  | badUnaryOp
  | badBinOp
  | badCallForm
  | badNodeType
  | unsupportedFunc (n : Chars)
  | unknownName (n : Chars)
  | syntaxErr
  | fnError
  | notModeled
  | zeroNegPow
  | notAnEquation
  | zeroCoeff
  | floatParseErr
  | badStatFormat
  | badStatFunc (n : Chars)
  | statError
  deriving DecidableEq

structure UCItem where
  operation : String
  expression : Chars
  result : RVal
  data : Option (List ℚ)
  error : Option CalcError

/-- The uniform error outcome built by the source's `except` blocks. -/
def errItem (s : Chars) (e : CalcError) : UCItem :=
  { operation := "error", expression := s, result := RVal.nan, data := none, error := some e }

/-! ## Allow-lists (UnifiedCalculator.__init__, server.py:240) -/

def safe_functions : List Chars :=
  [toL "sin", toL "cos", toL "tan", toL "log", toL "log10", toL "sqrt",
   toL "abs", toL "round", toL "pow",
   toL "mean", toL "median", toL "mode", toL "stdev", toL "variance",
   toL "min", toL "max", toL "sum", toL "len"]

/-- Exact rational value of the IEEE-754 double `math.pi`. -/
def piRat : ℚ := mkRat 884279719003555 281474976710656

/-- Exact rational value of the IEEE-754 double `math.e`. -/
def eRat : ℚ := mkRat 6121026514868073 2251799813685248

/-- Exact rational value of the IEEE-754 double `math.tau` (= 2 * pi). -/
def tauRat : ℚ := mkRat 884279719003555 140737488355328

def safe_constants (n : Chars) : Option ℚ :=
  if n = toL "pi" then some piRat
  else if n = toL "e" then some eRat
  else if n = toL "tau" then some tauRat
  else none

/-! ## Tokenizer

`ast.parse(expression, mode='eval')` restricted to the fragment the
evaluator accepts: numbers, single-quoted string literals, identifiers,
the seven binary operators, unary signs, parentheses and commas.  A
character outside this fragment makes parsing fail, which the source
surfaces as a syntax error caught by the surrounding `except`. -/

inductive BinK where
  | add | sub | mul | div | floordiv | mod | pow
  deriving DecidableEq

inductive Tok where
  | num (q : ℚ)
  | str (s : Chars)
  | name (s : Chars)
  | op (o : BinK)
  | lpar
  | rpar
  | comma
  deriving DecidableEq

def numOfParts (ip fp : Chars) : ℚ := (digitsVal ip : ℚ) + fracVal fp

def tokenize : ℕ → Chars → Option (List Tok)
  | 0, _ => none
  | _ + 1, [] => some []
  | f + 1, c :: r =>
    if isPyWs c then tokenize f r
    else if c.isDigit then
      let (ip, r1) := spanDigits (c :: r)
      match r1 with
      | '.' :: r2 =>
        let (fp, r3) := spanDigits r2
        do
          let ts ← tokenize f r3
          some (Tok.num (numOfParts ip fp) :: ts)
      | _ => do
          let ts ← tokenize f r1
          some (Tok.num (numOfParts ip []) :: ts)
    else if c = '.' then
      match r with
      | d :: _ =>
        if d.isDigit then
          let (fp, r1) := spanDigits r
          do
            let ts ← tokenize f r1
            some (Tok.num (numOfParts [] fp) :: ts)
        else none
      | [] => none
    else if isIdentStart c then
      let nm := (c :: r).takeWhile isIdentCont
      let r1 := (c :: r).dropWhile isIdentCont
      do
        let ts ← tokenize f r1
        some (Tok.name nm :: ts)
    else if c = sqChar then
      let lit := r.takeWhile (fun x => x ≠ sqChar)
      match r.drop lit.length with
      | q :: r2 =>
        if q = sqChar then do
          let ts ← tokenize f r2
          some (Tok.str lit :: ts)
        else none
      | [] => none
    else if c = '*' then
      match r with
      | '*' :: r2 => do
          let ts ← tokenize f r2
          some (Tok.op BinK.pow :: ts)
      | _ => do
          let ts ← tokenize f r
          some (Tok.op BinK.mul :: ts)
    else if c = '/' then
      match r with
      | '/' :: r2 => do
          let ts ← tokenize f r2
          some (Tok.op BinK.floordiv :: ts)
      | _ => do
          let ts ← tokenize f r
          some (Tok.op BinK.div :: ts)
    else if c = '+' then do
      let ts ← tokenize f r
      some (Tok.op BinK.add :: ts)
    else if c = '-' then do
      let ts ← tokenize f r
      some (Tok.op BinK.sub :: ts)
    else if c = '%' then do
      let ts ← tokenize f r
      some (Tok.op BinK.mod :: ts)
    else if c = '(' then do
      let ts ← tokenize f r
      some (Tok.lpar :: ts)
    else if c = ')' then do
      let ts ← tokenize f r
      some (Tok.rpar :: ts)
    else if c = ',' then do
      let ts ← tokenize f r
      some (Tok.comma :: ts)
    else none

/-! ## Abstract syntax

Mirror of the `ast` node shapes the evaluator distinguishes
(server.py:584): constants, binary operations, unary operations, calls
and name references. -/

inductive Ast where
  | constNum (q : ℚ)
  | constStr (s : Chars)
  | binop (o : BinK) (l r : Ast)
  | unop (neg : Bool) (e : Ast)
  | call (f : Ast) (args : List Ast)
  | nameRef (s : Chars)

/-! ## Parser

Recursive-descent parser with Python's expression grammar for this
fragment: `+`/`-` (lowest, left-associative), `*`/`/`/`//`/`%`
(left-associative), unary `+`/`-`, `**` (highest, right-associative: its
left operand is a primary, its right operand a unary expression), call
trailers and parenthesised atoms.  Fueled to be structurally total. -/

mutual

def parseAdd : ℕ → List Tok → Option (Ast × List Tok)
  | 0, _ => none
  | f + 1, ts => do
    let (l, ts1) ← parseMul f ts
    parseAddLoop f l ts1

def parseAddLoop : ℕ → Ast → List Tok → Option (Ast × List Tok)
  | 0, _, _ => none
  | f + 1, acc, Tok.op BinK.add :: ts1 => do
    let (r, ts2) ← parseMul f ts1
    parseAddLoop f (Ast.binop BinK.add acc r) ts2
  | f + 1, acc, Tok.op BinK.sub :: ts1 => do
    let (r, ts2) ← parseMul f ts1
    parseAddLoop f (Ast.binop BinK.sub acc r) ts2
  | _ + 1, acc, ts => some (acc, ts)

def parseMul : ℕ → List Tok → Option (Ast × List Tok)
  | 0, _ => none
  | f + 1, ts => do
    let (l, ts1) ← parseUnary f ts
    parseMulLoop f l ts1

def parseMulLoop : ℕ → Ast → List Tok → Option (Ast × List Tok)
  | 0, _, _ => none
  | f + 1, acc, Tok.op BinK.mul :: ts1 => do
    let (r, ts2) ← parseUnary f ts1
    parseMulLoop f (Ast.binop BinK.mul acc r) ts2
  | f + 1, acc, Tok.op BinK.div :: ts1 => do
    let (r, ts2) ← parseUnary f ts1
    parseMulLoop f (Ast.binop BinK.div acc r) ts2
  | f + 1, acc, Tok.op BinK.floordiv :: ts1 => do
    let (r, ts2) ← parseUnary f ts1
    parseMulLoop f (Ast.binop BinK.floordiv acc r) ts2
  | f + 1, acc, Tok.op BinK.mod :: ts1 => do
    let (r, ts2) ← parseUnary f ts1
    parseMulLoop f (Ast.binop BinK.mod acc r) ts2
  | _ + 1, acc, ts => some (acc, ts)

def parseUnary : ℕ → List Tok → Option (Ast × List Tok)
  | 0, _ => none
  | f + 1, Tok.op BinK.add :: ts1 => do
    let (e, ts2) ← parseUnary f ts1
    some (Ast.unop false e, ts2)
  | f + 1, Tok.op BinK.sub :: ts1 => do
    let (e, ts2) ← parseUnary f ts1
    some (Ast.unop true e, ts2)
  | f + 1, ts => parsePow f ts

def parsePow : ℕ → List Tok → Option (Ast × List Tok)
  | 0, _ => none
  | f + 1, ts => do
    let (b, ts1) ← parsePrimary f ts
    match ts1 with
    | Tok.op BinK.pow :: ts2 => do
      let (e, ts3) ← parseUnary f ts2
      some (Ast.binop BinK.pow b e, ts3)
    | _ => some (b, ts1)

def parsePrimary : ℕ → List Tok → Option (Ast × List Tok)
  | 0, _ => none
  | f + 1, ts => do
    let (a, ts1) ← parseAtom f ts
    parseTrailers f a ts1

def parseTrailers : ℕ → Ast → List Tok → Option (Ast × List Tok)
  | 0, _, _ => none
  | f + 1, a, Tok.lpar :: ts1 => do
    let (args, ts2) ← parseCallArgs f ts1
    parseTrailers f (Ast.call a args) ts2
  | _ + 1, a, ts => some (a, ts)

def parseCallArgs : ℕ → List Tok → Option (List Ast × List Tok)
  | 0, _ => none
  | _ + 1, Tok.rpar :: ts1 => some ([], ts1)
  | f + 1, ts => do
    let (e, ts1) ← parseAdd f ts
    parseArgsRest f [e] ts1

def parseArgsRest : ℕ → List Ast → List Tok → Option (List Ast × List Tok)
  | 0, _, _ => none
  | f + 1, acc, Tok.comma :: ts1 => do
    let (e, ts2) ← parseAdd f ts1
    parseArgsRest f (acc ++ [e]) ts2
  | _ + 1, acc, Tok.rpar :: ts1 => some (acc, ts1)
  | _ + 1, _, _ => none

def parseAtom : ℕ → List Tok → Option (Ast × List Tok)
  | 0, _ => none
  | _ + 1, Tok.num q :: ts1 => some (Ast.constNum q, ts1)
  | _ + 1, Tok.str s :: ts1 => some (Ast.constStr s, ts1)
  | _ + 1, Tok.name n :: ts1 => some (Ast.nameRef n, ts1)
  | f + 1, Tok.lpar :: ts1 => do
    let (e, ts2) ← parseAdd f ts1
    match ts2 with
    | Tok.rpar :: ts3 => some (e, ts3)
    | _ => none
  | _ + 1, _ => none

end

/-- Full parse of one expression string, mirroring
`ast.parse(expression, mode='eval')`: tokenize, parse, and require that
every token is consumed. -/
def pyParse (s : Chars) : Option Ast :=
  match tokenize (s.length + 1) s with
  | none => none
  | some ts =>
    match parseAdd (20 * (ts.length + 1)) ts with
    | some (a, []) => some a
    | _ => none

/-! ## Numeric operator semantics

Python float semantics on the exact-rational fragment: true division,
floor division (`math.floor(a/b)` with the sign of the divisor absorbed
by the floor), Python `%` (`a - b*floor(a/b)`), and `**` for integer
exponents.  A fractional exponent generally produces an irrational (or
complex) value; the embedding reports `notModeled` there, and no claim
exercises that case. -/

def pyFloorDiv (a b : ℚ) : ℚ := ((a / b).floor : ℚ)

def pyMod (a b : ℚ) : ℚ := a - b * ((a / b).floor : ℚ)

def qpow (a b : ℚ) : Except CalcError ℚ :=
  if b.den = 1 then
    if a = 0 && b.num < 0 then Except.error CalcError.zeroNegPow
    else Except.ok (a ^ b.num)
  else Except.error CalcError.notModeled

/-- Shared dispatch for the seven binary operators, checking the right
operand against exactly zero for `/`, `//`, `%` as server.py:628-641 does. -/
def binApply (o : BinK) (a b : ℚ) : Except CalcError ℚ :=
  match o with
  | BinK.add => Except.ok (a + b)
  | BinK.sub => Except.ok (a - b)
  | BinK.mul => Except.ok (a * b)
  | BinK.div => if b = 0 then Except.error CalcError.divZero else Except.ok (a / b)
  | BinK.pow => qpow a b
  | BinK.floordiv => if b = 0 then Except.error CalcError.divZero else Except.ok (pyFloorDiv a b)
  | BinK.mod => if b = 0 then Except.error CalcError.divZero else Except.ok (pyMod a b)

/-- Exact rational square root, if one exists. -/
def ratSqrt (q : ℚ) : Option ℚ :=
  if q < 0 then none
  else
    let n := q.num.toNat
    let d := q.den
    let sn := Nat.sqrt n
    let sd := Nat.sqrt d
    if sn * sn = n && sd * sd = d then some ((sn : ℚ) / (sd : ℚ)) else none

/-- Python banker's rounding (`round` with one argument). -/
def roundHalfEven (x : ℚ) : ℚ :=
  let f : ℤ := x.floor
  let r : ℚ := x - (f : ℚ)
  if r < 1 / 2 then (f : ℚ)
  else if 1 / 2 < r then ((f + 1 : ℤ) : ℚ)
  else if f % 2 = 0 then (f : ℚ) else ((f + 1 : ℤ) : ℚ)

/-- Application of an allow-listed function from `safe_functions`.  The
cases whose Python counterparts are exact on rationals (abs, round, pow,
sqrt of a perfect square, min/max of several floats) are modelled
exactly; the remaining names either raise in Python when applied to
unpacked float arguments (sum, len and the statistics functions, which
expect one iterable) or return transcendental values (sin, cos, tan,
log, log10); both are modelled as `fnError`.  No claim evaluates any of
these cases. -/
def applyFn (nm : Chars) (args : List ℚ) : Except CalcError ℚ :=
  if nm = toL "abs" then
    match args with
    | [x] => Except.ok |x|
    | _ => Except.error CalcError.fnError
  else if nm = toL "round" then
    match args with
    | [x] => Except.ok (roundHalfEven x)
    | _ => Except.error CalcError.fnError
  else if nm = toL "pow" then
    match args with
    | [a, b] => qpow a b
    | _ => Except.error CalcError.fnError
  else if nm = toL "sqrt" then
    match args with
    | [x] =>
      match ratSqrt x with
      | some r => Except.ok r
      | none => Except.error CalcError.notModeled
    | _ => Except.error CalcError.fnError
  else if nm = toL "min" then
    match args with
    | x :: y :: rest => Except.ok ((y :: rest).foldl min x)
    | _ => Except.error CalcError.fnError
  else if nm = toL "max" then
    match args with
    | x :: y :: rest => Except.ok ((y :: rest).foldl max x)
    | _ => Except.error CalcError.fnError
  else Except.error CalcError.fnError

/-! ## UnifiedCalculator._eval_node (server.py:584) -/

mutual

def eval_node : Ast → Except CalcError ℚ
  | Ast.constNum q => Except.ok q
  | Ast.constStr _ => Except.error CalcError.constType
  | Ast.binop o l r => do
    let a ← eval_node l
    let b ← eval_node r
    binApply o a b
  | Ast.unop neg e => do
    let v ← eval_node e
    Except.ok (if neg then -v else v)
  | Ast.call f args =>
    match f with
    | Ast.nameRef fn =>
      if fn ∈ safe_functions then do
        let vs ← evalArgsList args
        applyFn fn vs
      else Except.error (CalcError.unsupportedFunc fn)
    | _ => Except.error CalcError.badCallForm
  | Ast.nameRef n =>
    match safe_constants n with
    | some v => Except.ok v
    | none => Except.error (CalcError.unknownName n)

def evalArgsList : List Ast → Except CalcError (List ℚ)
  | [] => Except.ok []
  | a :: rest => do
    let v ← eval_node a
    let vs ← evalArgsList rest
    Except.ok (v :: vs)

end

/-! ## Statistics (UnifiedCalculator.calculate_statistics, server.py:465) -/

def statFns : List Chars :=
  [toL "mean", toL "median", toL "mode", toL "stdev", toL "variance"]

def statFnParens : List Chars := statFns.map (fun f => f ++ [ '(' ])

def containsStatCall (s : Chars) : Bool := statFnParens.any (fun p => hasSub p s)

/-- Scanner for the lazy part of the statistics regex
`(\w+)\(\[(.*?)\]\)`: everything up to the first occurrence of the
two-character sequence close-bracket close-paren.  A newline before that
point makes the regex fail because `.` does not match newlines. -/
def findDataClose : Chars → Option (Chars × Chars)
  | [] => none
  | ']' :: ')' :: r => some ([], r)
  | c :: r =>
    if c = '\n' then none
    else
      match findDataClose (c :: r).tail with
      | some (d, rr) => some (c :: d, rr)
      | none => none

/-- Model of `re.match(r'(\w+)\(\[(.*?)\]\)', expression)`: a word prefix,
a literal open-paren open-bracket, the lazy data segment, and the closing
pair; trailing characters are ignored, as `re.match` only anchors the
start. -/
def statMatch (s : Chars) : Option (Chars × Chars) :=
  let nm := s.takeWhile isWordChar
  if nm.isEmpty then none
  else
    match s.drop nm.length with
    | '(' :: '[' :: rest =>
      match findDataClose rest with
      | some (dat, _) => some (nm, dat)
      | none => none
    | _ => none

/-- Comma-split, strip, drop empties, parse floats — the source's list
comprehension over `data_str.split(',')`. -/
def parseDataList (dat : Chars) : Option (List ℚ) :=
  (((splitOnChar ',' dat).map trim).filter (fun x => !x.isEmpty)).mapM parseFloat

def insertSorted (x : ℚ) : List ℚ → List ℚ
  | [] => [x]
  | y :: r => if x ≤ y then x :: y :: r else y :: insertSorted x r

def sortQ (l : List ℚ) : List ℚ := l.foldr insertSorted []

def statMean (d : List ℚ) : Except CalcError ℚ :=
  if d.isEmpty then Except.error CalcError.statError
  else Except.ok (d.sum / (d.length : ℚ))

def statMedian (d : List ℚ) : Except CalcError ℚ :=
  if d.isEmpty then Except.error CalcError.statError
  else
    let s := sortQ d
    let n := d.length
    if n % 2 = 1 then Except.ok (s.getD (n / 2) 0)
    else Except.ok ((s.getD (n / 2 - 1) 0 + s.getD (n / 2) 0) / 2)

def statMode (d : List ℚ) : Except CalcError ℚ :=
  match d.find? (fun x => d.all (fun y => d.count y ≤ d.count x)) with
  | some x => Except.ok x
  | none => Except.error CalcError.statError

/-- Sample variance (the value `statistics.variance` computes). -/
def statVarianceVal (d : List ℚ) : ℚ :=
  let m := d.sum / (d.length : ℚ)
  (d.map (fun x => (x - m) ^ 2)).sum / ((d.length : ℚ) - 1)

/-- The if/elif chain over the five statistics function names
(server.py:496-507), including the single-element short circuits for
`stdev` and `variance`. -/
def statDispatch (nm : Chars) (data : List ℚ) : Except CalcError ℚ :=
  if nm = toL "mean" then statMean data
  else if nm = toL "median" then statMedian data
  else if nm = toL "mode" then statMode data
  else if nm = toL "stdev" then
    if 1 < data.length then
      match ratSqrt (statVarianceVal data) with
      | some r => Except.ok r
      | none => Except.error CalcError.notModeled
    else Except.ok 0
  else if nm = toL "variance" then
    if 1 < data.length then Except.ok (statVarianceVal data) else Except.ok 0
  else Except.error (CalcError.badStatFunc nm)

def calculate_statistics (s : Chars) : UCItem :=
  match statMatch s with
  | none => errItem s CalcError.badStatFormat
  | some (nm, dat) =>
    match parseDataList dat with
    | none => errItem s CalcError.floatParseErr
    | some data =>
      match statDispatch nm data with
      | Except.ok v =>
        { operation := "statistics", expression := s, result := RVal.num v,
          data := some data, error := none }
      | Except.error e => errItem s e

/-! ## UnifiedCalculator.evaluate_expression (server.py:318) -/

def evaluate_expression (s : Chars) : UCItem :=
  if containsStatCall s then calculate_statistics s
  else
    match pyParse s with
    | none => errItem s CalcError.syntaxErr
    | some a =>
      match eval_node a with
      | Except.ok v =>
        { operation := "expression", expression := s, result := RVal.num v,
          data := none, error := none }
      | Except.error e => errItem s e

/-! ## UnifiedCalculator._evaluate_simple_expression (server.py:678)

The source substitutes the decimal renderings of `math.pi` and `math.e`
into the raw text, runs a namespace-restricted `eval`, converts the
result with `float`, and on any failure falls back to `float(expr)` and
finally to `0.0`.  The restricted `eval` is modelled by the same parser
as above plus an evaluator over the `allowed_names` namespace
(`pi`, `e`, `sqrt`, `abs`, `pow`).  A bare function name or a string
value makes the subsequent `float(...)` conversion raise in Python; the
model collapses that to `fnError`, which lands in the same fallback
path. -/

def piStr : Chars := toL "3.141592653589793"

def eStr : Chars := toL "2.718281828459045"

def allowedRhsFns : List Chars := [toL "sqrt", toL "abs", toL "pow"]

def allowedRhsConsts (n : Chars) : Option ℚ :=
  if n = toL "pi" then some piRat
  else if n = toL "e" then some eRat
  else none

mutual

def evalRhsNode : Ast → Except CalcError ℚ
  | Ast.constNum q => Except.ok q
  | Ast.constStr _ => Except.error CalcError.fnError
  | Ast.binop o l r => do
    let a ← evalRhsNode l
    let b ← evalRhsNode r
    binApply o a b
  | Ast.unop neg e => do
    let v ← evalRhsNode e
    Except.ok (if neg then -v else v)
  | Ast.call f args =>
    match f with
    | Ast.nameRef fn =>
      if fn = toL "sqrt" then do
        let vs ← evalRhsArgs args
        match vs with
        | [x] =>
          match ratSqrt x with
          | some r => Except.ok r
          | none => Except.error CalcError.notModeled
        | _ => Except.error CalcError.fnError
      else if fn = toL "abs" then do
        let vs ← evalRhsArgs args
        match vs with
        | [x] => Except.ok |x|
        | _ => Except.error CalcError.fnError
      else if fn = toL "pow" then do
        let vs ← evalRhsArgs args
        match vs with
        | [a, b] => qpow a b
        | _ => Except.error CalcError.fnError
      else if fn = toL "pi" || fn = toL "e" then Except.error CalcError.fnError
      else Except.error (CalcError.unknownName fn)
    | _ => Except.error CalcError.badCallForm
  | Ast.nameRef n =>
    match allowedRhsConsts n with
    | some v => Except.ok v
    | none =>
      if n ∈ allowedRhsFns then Except.error CalcError.fnError
      else Except.error (CalcError.unknownName n)

def evalRhsArgs : List Ast → Except CalcError (List ℚ)
  | [] => Except.ok []
  | a :: rest => do
    let v ← evalRhsNode a
    let vs ← evalRhsArgs rest
    Except.ok (v :: vs)

end

def restrictedEvalStr (s : Chars) : Except CalcError ℚ :=
  match pyParse s with
  | none => Except.error CalcError.syntaxErr
  | some a => evalRhsNode a

/-- The two text substitutions `expr.replace('pi', str(math.pi))` and
`expr.replace('e', str(math.e))`; the rebinding of `expr` in the source
means both the eval attempt and the `float` fallback see this string. -/
def rhsSubstituted (expr : Chars) : Chars :=
  replaceAll (replaceAll expr (toL "pi") piStr) [ 'e' ] eStr

def evaluate_simple_expression (expr : Chars) : ℚ :=
  if expr.isEmpty || (trim expr).isEmpty then 0
  else
    match restrictedEvalStr (rhsSubstituted expr) with
    | Except.ok v => v
    | Except.error _ =>
      match parseFloat (rhsSubstituted expr) with
      | some v => v
      | none => 0

/-! ## UnifiedCalculator.solve_linear_equation (server.py:363)

The left side is scanned with
`re.findall(f'([+-]?\\d*\\.?\\d*)\\s*{variable}|([+-]\\d+\\.?\\d*)', left)`.
For identifier variables none of the pattern's character classes overlap
with the characters that follow them, so the backtracking regex engine
behaves exactly like the greedy one-pass matchers below; `findall` then
collects leftmost non-overlapping matches (neither alternative can match
the empty string). -/

/-- Sign matcher `[+-]?`, keeping the matched text. -/
def readSignKeep : Chars → Chars × Chars
  | '+' :: r => (['+'], r)
  | '-' :: r => (['-'], r)
  | s => ([], s)

/-- Optional decimal point `\.?`, keeping the matched text. -/
def readDot : Chars → Chars × Chars
  | '.' :: r => (['.'], r)
  | s => ([], s)

def matchB1 (v s : Chars) : Option (Chars × Chars) :=
  match readSignKeep s with
  | (sg, s1) =>
    match spanDigits s1 with
    | (d1, s2) =>
      match readDot s2 with
      | (dot, s3) =>
        match spanDigits s3 with
        | (d2, s4) =>
          if startsWith v (s4.dropWhile isPyWs) then
            some (sg ++ d1 ++ dot ++ d2, (s4.dropWhile isPyWs).drop v.length)
          else none

def matchB2 (s : Chars) : Option (Chars × Chars) :=
  match s with
  | c :: r =>
    if c = '+' || c = '-' then
      match spanDigits r with
      | (d1, s2) =>
        if d1.isEmpty then none
        else
          match readDot s2 with
          | (dot, s3) =>
            match spanDigits s3 with
            | (d2, s4) => some (c :: (d1 ++ dot ++ d2), s4)
    else none
  | [] => none

def findallGo (v : Chars) : ℕ → Chars → List (Chars × Chars)
  | 0, _ => []
  | _ + 1, [] => []
  | f + 1, c :: r =>
    match matchB1 v (c :: r) with
    | some (g, rest) => (g, []) :: findallGo v f rest
    | none =>
      match matchB2 (c :: r) with
      | some (g, rest) => ([], g) :: findallGo v f rest
      | none => findallGo v f r

/-- The coefficient/constant accumulation loop over the findall matches
(server.py:404-416).  In the variable branch the guard only fires for a
nonempty group, so the source's dead `== ''` test is dropped. -/
def tallyMatches : List (Chars × Chars) → ℚ → ℚ → Except CalcError (ℚ × ℚ)
  | [], coeff, constant => Except.ok (coeff, constant)
  | (cm, km) :: rest, coeff, constant =>
    if !cm.isEmpty then
      if cm = ['+'] then tallyMatches rest (coeff + 1) constant
      else if cm = ['-'] then tallyMatches rest (coeff - 1) constant
      else
        match parseFloat cm with
        | some q => tallyMatches rest (coeff + q) constant
        | none => Except.error CalcError.floatParseErr
    else if !km.isEmpty then
      match parseFloat km with
      | some q => tallyMatches rest coeff (constant + q)
      | none => Except.error CalcError.floatParseErr
    else tallyMatches rest coeff constant

/-- Python `part in '+-'`: substring test against the two-character
string, true exactly for '', '+', '-' and '+-'. -/
def pyInPlusMinus (p : Chars) : Bool :=
  p.isEmpty || p = ['+'] || p = ['-'] || p = ['+', '-']

/-- The fallback parse (server.py:420-435) over `re.split(r'([+-])', left)`:
a part containing the variable assigns the coefficient from the part with
the variable name and `*` removed; a numeric part preceded by a sign
separator accumulates into the constant. -/
def backupGo (v : Chars) : Option Chars → ℚ → ℚ → List Chars → Except CalcError (ℚ × ℚ)
  | _, coeff, constant, [] => Except.ok (coeff, constant)
  | prev, coeff, constant, p :: rest =>
    if hasSub v p then
      let cs := (replaceAll p v []).filter (fun c => c ≠ '*')
      if cs.isEmpty || cs = ['+'] then backupGo v (some p) 1 constant rest
      else if cs = ['-'] then backupGo v (some p) (-1) constant rest
      else
        match parseFloat cs with
        | some q => backupGo v (some p) q constant rest
        | none => Except.error CalcError.floatParseErr
    else if !p.isEmpty && !pyInPlusMinus p &&
            (match prev with | some pr => pyInPlusMinus pr | none => false) then
      match parseFloat p with
      | some q =>
        let sign : ℚ := match prev with | some pr => if pr = ['-'] then -1 else 1 | none => 1
        backupGo v (some p) coeff (constant + sign * q) rest
      | none => Except.error CalcError.floatParseErr
    else backupGo v (some p) coeff constant rest

/-- Coefficient extraction (server.py:399-435): the findall tally,
followed by the fallback scan when no variable term was found. -/
def solveTally (vr left : Chars) : Except CalcError (ℚ × ℚ) :=
  match tallyMatches (findallGo vr (left.length + 1) left) 0 0 with
  | Except.error e => Except.error e
  | Except.ok (c0, k0) =>
    if c0 = 0 && hasSub vr left then backupGo vr none c0 k0 (splitKeepSigns left)
    else Except.ok (c0, k0)

/-- The body of the solver after the equation is split at `=` and both
sides are stripped: parse the space-free left side, reject a zero
coefficient, and return `(right - constant) / coeff`. -/
def solveLR (leftS rightS vr : Chars) : Except CalcError ℚ :=
  match solveTally vr (leftS.filter (fun c => c ≠ ' ')) with
  | Except.error e => Except.error e
  | Except.ok (coeff, constant) =>
    if coeff = 0 then Except.error CalcError.zeroCoeff
    else Except.ok ((evaluate_simple_expression rightS - constant) / coeff)

def solveCore (equation vr : Chars) : Except CalcError ℚ :=
  match splitOnChar '=' equation with
  | [l, r] => solveLR (trim l) (trim r) vr
  | _ => Except.error CalcError.notAnEquation

def solve_linear_equation (equation vr : Chars) : UCItem :=
  match solveCore equation vr with
  | Except.ok sol =>
    { operation := "linear_equation", expression := equation, result := RVal.num sol,
      data := none, error := none }
  | Except.error e => errItem equation e

/-! ## UnifiedCalculator.detect_expression_type (server.py:279)

`'=' in expression` and `';' in expression` are Python substring tests;
`re.search(r'[a-zA-Z]\w*', expression)` succeeds exactly when some
character is an ASCII letter. -/

def detect_expression_type (s : Chars) : String :=
  if hasSub [ '=' ] (trim s) && (trim s).any (fun c => c.isAlpha) then "linear_equation"
  else if hasSub [ ';' ] (trim s) then "batch_calculation"
  else if containsStatCall (trim s) then "statistics"
  else "expression"

/-- The same decision list written from the specification's words
(section 4.5), over the raw input string.  Used to state that the
dispatcher refines the spec's first-match priority. -/
def detectSpec (s : Chars) : String :=
  if hasSub [ '=' ] s && s.any (fun c => c.isAlpha) then "linear_equation"
  else if hasSub [ ';' ] s then "batch_calculation"
  else if containsStatCall s then "statistics"
  else "expression"

/-! ## UnifiedCalculator.process_batch (server.py:532) -/

/-- Per-segment dispatch inside the batch loop (server.py:552-558).  A
segment cannot re-enter the batch branch (it contains no ';'), and the
source routes the remaining types through `evaluate_expression`. -/
def dispatchSegment (e : Chars) : UCItem :=
  if detect_expression_type e = "linear_equation" then solve_linear_equation e (toL "x")
  else if detect_expression_type e = "statistics" then calculate_statistics e
  else evaluate_expression e

def segmentsOf (s : Chars) : List Chars :=
  ((splitOnChar ';' s).map trim).filter (fun x => !x.isEmpty)

/-- The batch result: the Python object is the same
`UnifiedCalculationResult` shape with `batch_results` populated; segment
results never populate `batch_results` themselves, so the one level of
nesting is split into its own structure. -/
structure BatchOutcome where
  operation : String
  expression : Chars
  result : RVal
  batch_results : List UCItem
  error : Option CalcError

def process_batch (s : Chars) : BatchOutcome :=
  let items := (segmentsOf s).map dispatchSegment
  { operation := "batch_calculation"
    , expression := s
    , result := RVal.listv ((items.filter (fun r => r.operation != "error")).map (fun r => r.result))
    , batch_results := items
    , error := none }

/-! ## Response truncation (calculate, server.py:892-906)

`json.dumps` is host-library serialization; the truncation logic only
inspects the length of the serialized string, so the serializer is a
parameter here.  On overflow the source halves a list-valued result
(`result[:len(result)//2]`), leaves other results unchanged, and attaches
`truncated=True` plus an explanatory message to the payload it returns. -/

def CHARACTER_LIMIT : ℕ := 25000

structure JsonResponse where
  operation : String
  expression : Chars
  result : RVal
  error : Option CalcError
  truncated : Bool
  truncation_message : Option String

def truncationNotice : String :=
  "Response truncated because it exceeded the character limit."

def applyCharacterLimit (ser : JsonResponse → Chars) (d : JsonResponse) : JsonResponse :=
  if CHARACTER_LIMIT < (ser d).length then
    { d with
        result := match d.result with
          | RVal.listv l => RVal.listv (l.take (l.length / 2))
          | r => r
        , truncated := true
        , truncation_message := some truncationNotice }
  else d

/-! ## Fixtures for closed witnesses -/

/-- The string `__import__('os')`, with the quote written via its code
point. -/
def inImportOs : Chars := toL "__import__(" ++ [sqChar] ++ toL "os" ++ [sqChar, ')']

/-- A complete batch response whose list-valued result will be halved by
truncation. -/
def demoOversized : JsonResponse :=
  { operation := "batch_calculation", expression := toL "demo"
    , result := RVal.listv [RVal.num 1, RVal.num 2, RVal.num 3, RVal.num 4]
    , error := none, truncated := false, truncation_message := none }

/-- A serializer producing 25001 characters, one over the limit. -/
def demoSerializer : JsonResponse → Chars := fun _ => List.replicate 25001 'a'

/-! # Theorems -/

unseal Rat.add Rat.mul Rat.inv Rat.sub in
/-- C1, counterexample to the claim as stated: the input
`mean([1,2]) import` contains the denylisted substring `import`, yet
`evaluate_expression` does not fail — the statistics redirect matches the
prefix `mean([1,2])` and returns 1.5.  There is no raw-text denylist
pre-check in the code. -/
theorem c1_counterexample :
    hasSub (toL "import") (toL "mean([1,2]) import") = true ∧
    (evaluate_expression (toL "mean([1,2]) import")).operation = "statistics" ∧
    (evaluate_expression (toL "mean([1,2]) import")).error = none ∧
    (evaluate_expression (toL "mean([1,2]) import")).result = RVal.num (3 / 2) :=
  ⟨rfl, rfl, rfl, rfl⟩

unseal Rat.add Rat.mul Rat.inv Rat.sub in
/-- C1, amended: an expression whose AST reaches a non-allow-listed name
or disallowed node fails with the calculator's uniform error outcome
(there is no distinct SecurityError classification and no raw-text
pre-check): `__import__('os')` fails with the unsupported-function error
while `2+3` succeeds with 5. -/
theorem c1_theorem :
    (evaluate_expression inImportOs).operation = "error" ∧
    (evaluate_expression inImportOs).error
      = some (CalcError.unsupportedFunc (toL "__import__")) ∧
    (evaluate_expression (toL "2+3")).operation = "expression" ∧
    (evaluate_expression (toL "2+3")).result = RVal.num 5 ∧
    (evaluate_expression (toL "2+3")).error = none :=
  ⟨rfl, rfl, rfl, rfl, rfl⟩

unseal Rat.add Rat.mul Rat.inv Rat.sub in
/-- C2, counterexample to the claim as stated: `x = x` does not yield an
infinitely-many-solutions outcome and `x = x + 1` does not yield a
no-solution outcome; both are solved as ordinary equations with result
`x = 0` (the right-hand side containing the variable silently evaluates
to 0 through the fallback), so the two inputs produce identical outcome
shapes instead of the two distinct terminal outcomes the claim
requires. -/
theorem c2_counterexample :
    (solve_linear_equation (toL "x = x") (toL "x")).operation = "linear_equation" ∧
    (solve_linear_equation (toL "x = x") (toL "x")).result = RVal.num 0 ∧
    (solve_linear_equation (toL "x = x") (toL "x")).error = none ∧
    (solve_linear_equation (toL "x = x + 1") (toL "x")).operation = "linear_equation" ∧
    (solve_linear_equation (toL "x = x + 1") (toL "x")).result = RVal.num 0 ∧
    (solve_linear_equation (toL "x = x + 1") (toL "x")).error = none :=
  ⟨rfl, rfl, rfl, rfl, rfl, rfl⟩

unseal Rat.add Rat.mul Rat.inv Rat.sub in
/-- C2, amended: the solver has no degenerate-case decision; when the
extracted coefficient is zero it raises and returns an error outcome
(e.g. `0x = 5`), and `x = x` / `x = x + 1` are each solved as `x = 0`
because the unparseable right-hand side falls back to 0. -/
theorem c2_theorem :
    (solve_linear_equation (toL "x = x") (toL "x")).result = RVal.num 0 ∧
    (solve_linear_equation (toL "x = x + 1") (toL "x")).result = RVal.num 0 ∧
    (solve_linear_equation (toL "0x = 5") (toL "x")).operation = "error" ∧
    (solve_linear_equation (toL "0x = 5") (toL "x")).error = some CalcError.zeroCoeff :=
  ⟨rfl, rfl, rfl, rfl⟩

unseal Rat.add Rat.mul Rat.inv Rat.sub in
/-- C4: evaluation of well-formed arithmetic follows Python's operator
precedence, with `**` right-associative; the parse tree of
`2 ** 3 ** 2` nests to the right, giving 512 rather than 64.
Determinism holds because the embedded evaluator is a pure function of
the input string. -/
theorem c4_theorem :
    (evaluate_expression (toL "2 + 3 * 4")).result = RVal.num 14 ∧
    (evaluate_expression (toL "2 + 3 * 4")).error = none ∧
    (evaluate_expression (toL "(2 + 3) * 4")).result = RVal.num 20 ∧
    (evaluate_expression (toL "(2 + 3) * 4")).error = none ∧
    (evaluate_expression (toL "2 ** 3 ** 2")).result = RVal.num 512 ∧
    (evaluate_expression (toL "2 ** 3 ** 2")).error = none ∧
    pyParse (toL "2 ** 3 ** 2")
      = some (Ast.binop BinK.pow (Ast.constNum 2)
          (Ast.binop BinK.pow (Ast.constNum 3) (Ast.constNum 2))) :=
  ⟨rfl, rfl, rfl, rfl, rfl, rfl, rfl⟩

unseal Rat.add Rat.mul Rat.inv Rat.sub in
/-- C8: statistics calls parse their bracketed data lists;
`mean([1,2,3,4,5])` gives 3 and `stdev([7])` takes the single-element
short circuit and gives 0 instead of an error. -/
theorem c8_theorem :
    (calculate_statistics (toL "mean([1,2,3,4,5])")).operation = "statistics" ∧
    (calculate_statistics (toL "mean([1,2,3,4,5])")).result = RVal.num 3 ∧
    (calculate_statistics (toL "mean([1,2,3,4,5])")).data = some [1, 2, 3, 4, 5] ∧
    (calculate_statistics (toL "mean([1,2,3,4,5])")).error = none ∧
    (calculate_statistics (toL "stdev([7])")).operation = "statistics" ∧
    (calculate_statistics (toL "stdev([7])")).result = RVal.num 0 ∧
    (calculate_statistics (toL "stdev([7])")).error = none :=
  ⟨rfl, rfl, rfl, rfl, rfl, rfl, rfl⟩

unseal Rat.add Rat.mul Rat.inv Rat.sub in
/-- C3: for any operand subtrees, once the right operand evaluates to
exactly zero, the three division-like operators error out with the
division-by-zero failure (they never produce a value), and the three
concrete expressions `5 / 0`, `5 // 0`, `5 % 0` all produce the error
outcome carrying that failure. -/
theorem c3_theorem :
    (∀ nl nr vl, eval_node nl = Except.ok vl → eval_node nr = Except.ok 0 →
      eval_node (Ast.binop BinK.div nl nr) = Except.error CalcError.divZero ∧
      eval_node (Ast.binop BinK.floordiv nl nr) = Except.error CalcError.divZero ∧
      eval_node (Ast.binop BinK.mod nl nr) = Except.error CalcError.divZero) ∧
    (evaluate_expression (toL "5 / 0")).operation = "error" ∧
    (evaluate_expression (toL "5 / 0")).error = some CalcError.divZero ∧
    (evaluate_expression (toL "5 // 0")).operation = "error" ∧
    (evaluate_expression (toL "5 // 0")).error = some CalcError.divZero ∧
    (evaluate_expression (toL "5 % 0")).operation = "error" ∧
    (evaluate_expression (toL "5 % 0")).error = some CalcError.divZero := by
  refine ⟨?_, rfl, rfl, rfl, rfl, rfl, rfl⟩
  intro nl nr vl hl hr
  refine ⟨?_, ?_, ?_⟩ <;> (simp only [eval_node, hl, hr]; rfl)

/-- C3 witness: the general part of the claim instantiated at the
operands 5 and 0. -/
theorem c3_witness :
    eval_node (Ast.binop BinK.div (Ast.constNum 5) (Ast.constNum 0))
      = Except.error CalcError.divZero ∧
    eval_node (Ast.binop BinK.floordiv (Ast.constNum 5) (Ast.constNum 0))
      = Except.error CalcError.divZero ∧
    eval_node (Ast.binop BinK.mod (Ast.constNum 5) (Ast.constNum 0))
      = Except.error CalcError.divZero :=
  c3_theorem.1 (Ast.constNum 5) (Ast.constNum 0) 5 rfl rfl

/-- C9: whenever the serialized response exceeds the 25000-character
limit, the returned payload carries `truncated = true` and the
explanatory message, a list-valued result is cut to its first half, and
a scalar result is left unchanged.  The truncation acts on the response
built from the already-complete result, and `applyCharacterLimit` is a
pure function, so the output is determined by the oversized input. -/
theorem c9_theorem :
    ∀ (ser : JsonResponse → Chars) (d : JsonResponse),
      CHARACTER_LIMIT < (ser d).length →
      (applyCharacterLimit ser d).truncated = true ∧
      (applyCharacterLimit ser d).truncation_message = some truncationNotice ∧
      (∀ l, d.result = RVal.listv l →
        (applyCharacterLimit ser d).result = RVal.listv (l.take (l.length / 2))) ∧
      (∀ q, d.result = RVal.num q → (applyCharacterLimit ser d).result = RVal.num q) := by
  intro ser d h
  unfold applyCharacterLimit
  rw [if_pos h]
  refine ⟨rfl, rfl, ?_, ?_⟩
  · intro l hl
    simp [hl]
  · intro q hq
    simp [hq]

/-- C9 witness: a four-element batch result with a 25001-character
serialization is marked truncated and halved to its first two
elements. -/
theorem c9_witness :
    (applyCharacterLimit demoSerializer demoOversized).truncated = true ∧
    (applyCharacterLimit demoSerializer demoOversized).result
      = RVal.listv [RVal.num 1, RVal.num 2] := by
  have h : CHARACTER_LIMIT < (demoSerializer demoOversized).length := by
    show CHARACTER_LIMIT < (List.replicate 25001 'a').length
    rw [List.length_replicate]
    norm_num [CHARACTER_LIMIT]
  obtain ⟨h1, _, h3, _⟩ := c9_theorem demoSerializer demoOversized h
  refine ⟨h1, ?_⟩
  have hres := h3 [RVal.num 1, RVal.num 2, RVal.num 3, RVal.num 4] rfl
  exact hres.trans rfl

unseal Rat.add Rat.mul Rat.inv Rat.sub in
/-- C10: the right-hand-side helper is a total function into the
numbers; whenever both the restricted evaluation and the float fallback
fail on the substituted text it silently returns 0, in particular on the
bare equation variable `x`; consequently an equation with an
unparseable right side is solved exactly as if the right side were
`0`. -/
theorem c10_theorem :
    (∀ (s : Chars) (e : CalcError),
      restrictedEvalStr (rhsSubstituted s) = Except.error e →
      parseFloat (rhsSubstituted s) = none →
      evaluate_simple_expression s = 0) ∧
    evaluate_simple_expression (toL "x") = 0 ∧
    (solve_linear_equation (toL "2x + 3 = foo") (toL "x")).result
      = (solve_linear_equation (toL "2x + 3 = 0") (toL "x")).result ∧
    (solve_linear_equation (toL "2x + 3 = foo") (toL "x")).result = RVal.num (-3 / 2) := by
  refine ⟨?_, rfl, rfl, rfl⟩
  intro s e h1 h2
  unfold evaluate_simple_expression
  split
  · rfl
  · rw [h1, h2]

/-- C10 witness: the failure path instantiated at the input `x`, whose
restricted evaluation fails with an unresolved name and whose float
fallback fails too. -/
theorem c10_witness : evaluate_simple_expression (toL "x") = 0 :=
  c10_theorem.1 (toL "x") (CalcError.unknownName (toL "x")) rfl rfl

/-! ## Helper lemmas: every per-segment handler echoes its input in the
`expression` field, so a batch preserves segments in order. -/

theorem solve_linear_equation_expression (q v : Chars) :
    (solve_linear_equation q v).expression = q := by
  unfold solve_linear_equation
  cases solveCore q v <;> rfl

theorem calculate_statistics_expression (s : Chars) :
    (calculate_statistics s).expression = s := by
  unfold calculate_statistics
  repeat' split
  all_goals rfl

theorem errItem_expression (s : Chars) (e : CalcError) : (errItem s e).expression = s := rfl

theorem evaluate_expression_expression (s : Chars) :
    (evaluate_expression s).expression = s := by
  unfold evaluate_expression
  split
  · exact calculate_statistics_expression s
  · repeat' split
    all_goals rfl

theorem dispatchSegment_expression (e : Chars) :
    (dispatchSegment e).expression = e := by
  unfold dispatchSegment
  split
  · exact solve_linear_equation_expression e (toL "x")
  · split
    · exact calculate_statistics_expression e
    · exact evaluate_expression_expression e

unseal Rat.add Rat.mul Rat.inv Rat.sub in
/-- C6: for every batch input, the batch outcome is always the
batch-calculation outcome (never an error: per-segment failures are
isolated) and its per-segment outcomes list the nonempty trimmed
segments in original order; on `2+3; 1/0; 4*5` the three outcomes are
success 5, an isolated division-by-zero failure (with the nan result
sentinel), and success 20, and the aggregate result keeps only the
successful values `[5, 20]` in order. -/
theorem c6_theorem :
    (∀ s : Chars,
      (process_batch s).operation = "batch_calculation" ∧
      (process_batch s).error = none ∧
      (process_batch s).batch_results.map (fun r => r.expression) = segmentsOf s) ∧
    segmentsOf (toL "2+3; 1/0; 4*5") = [toL "2+3", toL "1/0", toL "4*5"] ∧
    ((process_batch (toL "2+3; 1/0; 4*5")).batch_results.map (fun r => r.operation)
      = ["expression", "error", "expression"]) ∧
    ((process_batch (toL "2+3; 1/0; 4*5")).batch_results.map (fun r => r.result)
      = [RVal.num 5, RVal.nan, RVal.num 20]) ∧
    ((process_batch (toL "2+3; 1/0; 4*5")).batch_results.map (fun r => r.error)
      = [none, some CalcError.divZero, none]) ∧
    (process_batch (toL "2+3; 1/0; 4*5")).result = RVal.listv [RVal.num 5, RVal.num 20] := by
  refine ⟨?_, rfl, rfl, rfl, rfl, rfl⟩
  intro s
  refine ⟨rfl, rfl, ?_⟩
  show ((segmentsOf s).map dispatchSegment).map (fun r => r.expression) = segmentsOf s
  rw [List.map_map]
  have : ∀ a ∈ segmentsOf s, (fun r => UCItem.expression r) (dispatchSegment a) = a := by
    intro a _
    exact dispatchSegment_expression a
  calc ((segmentsOf s).map fun a => (dispatchSegment a).expression)
      = (segmentsOf s).map id := List.map_congr_left this
    _ = segmentsOf s := List.map_id _

/-! ## Helper lemmas: the detector's tests are invariant under stripping

`detect_expression_type` strips its input before testing; the spec's
decision list reads the raw string.  Each test (substring containment of
a whitespace-free pattern, presence of a letter) is unchanged by
stripping whitespace from the ends. -/

theorem startsWith_append (p t : Chars) : startsWith p (p ++ t) = true := by
  induction p with
  | nil => rfl
  | cons a ps ih => simpa [startsWith] using ih

theorem startsWith_iff {p s : Chars} : startsWith p s = true ↔ ∃ t, s = p ++ t := by
  induction p generalizing s with
  | nil =>
    constructor
    · intro _
      exact ⟨s, rfl⟩
    · intro _
      rfl
  | cons a ps ih =>
    cases s with
    | nil =>
      simp only [startsWith]
      constructor
      · intro h
        exact absurd h (by simp)
      · rintro ⟨t, ht⟩
        exact absurd ht (by simp)
    | cons b rest =>
      simp only [startsWith, Bool.and_eq_true, decide_eq_true_eq, ih]
      constructor
      · rintro ⟨rfl, t, rfl⟩
        exact ⟨t, rfl⟩
      · rintro ⟨t, ht⟩
        injection ht with h1 h2
        exact ⟨h1.symm, t, h2⟩

theorem hasSub_nil_left (s : Chars) : hasSub [] s = true := by
  cases s <;> simp [hasSub, startsWith]

theorem hasSub_iff {p s : Chars} : hasSub p s = true ↔ ∃ u v, s = u ++ p ++ v := by
  induction s with
  | nil =>
    cases p with
    | nil => simp [hasSub]
    | cons a t =>
      simp only [hasSub, List.isEmpty_cons]
      constructor
      · intro h
        exact absurd h (by simp)
      · rintro ⟨u, v, huv⟩
        exact absurd huv (by simp)
  | cons c t ih =>
    simp only [hasSub, Bool.or_eq_true, startsWith_iff, ih]
    constructor
    · rintro (⟨v, hv⟩ | ⟨u, v, hv⟩)
      · exact ⟨[], v, by simpa using hv⟩
      · refine ⟨c :: u, v, ?_⟩
        rw [hv]
        rfl
    · rintro ⟨u, v, h⟩
      cases u with
      | nil =>
        left
        exact ⟨v, by simpa using h⟩
      | cons a u' =>
        right
        injection h with h1 h2
        exact ⟨u', v, h2⟩

theorem hasSub_dropWhile (p s : Chars) (hp : ∀ c ∈ p, isPyWs c = false) :
    hasSub p (s.dropWhile isPyWs) = hasSub p s := by
  induction s with
  | nil => rfl
  | cons c t ih =>
    by_cases h : isPyWs c = true
    · rw [List.dropWhile_cons, if_pos h, ih]
      cases p with
      | nil => rw [hasSub_nil_left, hasSub_nil_left]
      | cons a ps =>
        have ha : isPyWs a = false := hp a (List.mem_cons_self a ps)
        have hac : (decide (a = c)) = false := by
          rcases Decidable.em (a = c) with hac | hac
          · rw [hac] at ha
            rw [ha] at h
            exact absurd h (by simp)
          · simpa using hac
        simp [hasSub, startsWith, hac]
    · rw [List.dropWhile_cons, if_neg h]

theorem hasSub_reverse (p s : Chars) : hasSub p.reverse s.reverse = hasSub p s := by
  rw [Bool.eq_iff_iff, hasSub_iff, hasSub_iff]
  constructor
  · rintro ⟨u, v, h⟩
    refine ⟨v.reverse, u.reverse, ?_⟩
    rw [← List.reverse_reverse s, h]
    simp [List.reverse_append]
  · rintro ⟨u, v, rfl⟩
    exact ⟨v.reverse, u.reverse, by simp [List.reverse_append]⟩

theorem hasSub_trim (p s : Chars) (hp : ∀ c ∈ p, isPyWs c = false) :
    hasSub p (trim s) = hasSub p s := by
  have hp' : ∀ c ∈ p.reverse, isPyWs c = false := by
    intro c hc
    exact hp c (List.mem_reverse.mp hc)
  unfold trim
  calc hasSub p (((s.dropWhile isPyWs).reverse.dropWhile isPyWs).reverse)
      = hasSub p.reverse.reverse (((s.dropWhile isPyWs).reverse.dropWhile isPyWs).reverse) := by
        rw [List.reverse_reverse]
    _ = hasSub p.reverse ((s.dropWhile isPyWs).reverse.dropWhile isPyWs) :=
        hasSub_reverse p.reverse _
    _ = hasSub p.reverse (s.dropWhile isPyWs).reverse := hasSub_dropWhile _ _ hp'
    _ = hasSub p (s.dropWhile isPyWs) := hasSub_reverse p _
    _ = hasSub p s := hasSub_dropWhile _ _ hp

theorem any_reverse_chars (s : Chars) (f : Char → Bool) : s.reverse.any f = s.any f := by
  induction s with
  | nil => rfl
  | cons c t ih =>
    simp only [List.reverse_cons, List.any_append, List.any_cons, List.any_nil, ih]
    cases f c <;> cases t.any f <;> rfl

theorem any_dropWhile_chars (s : Chars) (f : Char → Bool)
    (h : ∀ c, isPyWs c = true → f c = false) :
    (s.dropWhile isPyWs).any f = s.any f := by
  induction s with
  | nil => rfl
  | cons c t ih =>
    by_cases hc : isPyWs c = true
    · rw [List.dropWhile_cons, if_pos hc, ih, List.any_cons, h c hc]
      rfl
    · rw [List.dropWhile_cons, if_neg hc]

theorem any_trim_chars (s : Chars) (f : Char → Bool)
    (h : ∀ c, isPyWs c = true → f c = false) :
    (trim s).any f = s.any f := by
  unfold trim
  rw [any_reverse_chars, any_dropWhile_chars _ _ h, any_reverse_chars,
    any_dropWhile_chars _ _ h]

theorem ws_not_alpha : ∀ c, isPyWs c = true → c.isAlpha = false := by
  intro c h
  simp only [isPyWs, Bool.or_eq_true, decide_eq_true_eq] at h
  rcases h with (((((h | h) | h) | h) | h) | h) <;> subst h <;> decide

theorem containsStatCall_trim (s : Chars) :
    containsStatCall (trim s) = containsStatCall s := by
  unfold containsStatCall
  simp only [statFnParens, statFns, List.map_cons, List.map_nil, List.any_cons, List.any_nil]
  rw [hasSub_trim _ _ (by decide), hasSub_trim _ _ (by decide), hasSub_trim _ _ (by decide),
    hasSub_trim _ _ (by decide), hasSub_trim _ _ (by decide)]

/-- C5: the classifier agrees with the specification's first-match
priority list on every input string (equality with the decision list
written from the spec's words, over the raw input), and the boundary
string `2x=3;4` is classified as a linear equation, not a batch, because
the equality-plus-letter test precedes the semicolon test. -/
theorem c5_theorem :
    (∀ s : Chars, detect_expression_type s = detectSpec s) ∧
    detect_expression_type (toL "2x=3;4") = "linear_equation" ∧
    detect_expression_type (toL "2x=3;4") ≠ "batch_calculation" := by
  refine ⟨?_, rfl, by decide⟩
  intro s
  unfold detect_expression_type detectSpec
  rw [hasSub_trim _ _ (by decide), hasSub_trim _ _ (by decide),
    any_trim_chars _ _ ws_not_alpha, containsStatCall_trim]

/-! ## Helper lemmas for the linear-equation round trip (C7)

These establish how the regex model, the float parser and the string
plumbing act on the decimal rendering of arbitrary integers. -/

theorem digitChar_isDigit {m : ℕ} (h : m < 10) : (digitChar m).isDigit = true := by
  interval_cases m <;> decide

theorem digitVal_digitChar {m : ℕ} (h : m < 10) : digitVal (digitChar m) = m := by
  interval_cases m <;> decide

theorem digitsVal_append_single (ds : Chars) (c : Char) :
    digitsVal (ds ++ [c]) = digitsVal ds * 10 + digitVal c := by
  unfold digitsVal
  rw [List.foldl_append]
  rfl

theorem natStrGo_spec :
    ∀ f n, n < f →
      natStrGo f n ≠ [] ∧ (∀ c ∈ natStrGo f n, c.isDigit = true) ∧
        digitsVal (natStrGo f n) = n := by
  intro f
  induction f with
  | zero => intro n h; exact absurd h (by omega)
  | succ f ih =>
    intro n h
    by_cases h10 : n < 10
    · refine ⟨by simp [natStrGo, h10], ?_, ?_⟩
      · intro c hc
        simp only [natStrGo, if_pos h10, List.mem_singleton] at hc
        subst hc
        exact digitChar_isDigit h10
      · simp [natStrGo, h10, digitsVal, digitVal_digitChar h10]
    · have h1 : n / 10 < n := Nat.div_lt_self (by omega) (by omega)
      have hrec : n / 10 < f := by omega
      obtain ⟨hne, hdig, hval⟩ := ih (n / 10) hrec
      rw [natStrGo, if_neg h10]
      refine ⟨by simp, ?_, ?_⟩
      · intro c hc
        rcases List.mem_append.mp hc with hc | hc
        · exact hdig c hc
        · rw [List.mem_singleton] at hc
          subst hc
          exact digitChar_isDigit (Nat.mod_lt _ (by omega))
      · rw [digitsVal_append_single, hval, digitVal_digitChar (Nat.mod_lt _ (by omega))]
        omega

theorem natStr_ne_nil (n : ℕ) : natStr n ≠ [] := (natStrGo_spec (n + 1) n (by omega)).1

theorem natStr_digits (n : ℕ) : ∀ c ∈ natStr n, c.isDigit = true :=
  (natStrGo_spec (n + 1) n (by omega)).2.1

theorem digitsVal_natStr (n : ℕ) : digitsVal (natStr n) = n :=
  (natStrGo_spec (n + 1) n (by omega)).2.2

theorem ws_not_digit {c : Char} (h : isPyWs c = true) : c.isDigit = false := by
  simp only [isPyWs, Bool.or_eq_true, decide_eq_true_eq] at h
  rcases h with (((((h | h) | h) | h) | h) | h) <;> subst h <;> decide

theorem digit_not_ws {c : Char} (h : c.isDigit = true) : isPyWs c = false := by
  cases hws : isPyWs c
  · rfl
  · rw [ws_not_digit hws] at h
    exact absurd h (by simp)

theorem digit_ne {c d : Char} (h : c.isDigit = true) (hd : d.isDigit = false) : c ≠ d := by
  intro he
  subst he
  rw [h] at hd
  exact absurd hd (by simp)

theorem takeWhile_digits_append (ds rest : Chars) (h : ∀ c ∈ ds, c.isDigit = true)
    (h2 : ∀ c r', rest = c :: r' → c.isDigit = false) :
    (ds ++ rest).takeWhile Char.isDigit = ds := by
  induction ds with
  | nil =>
    cases rest with
    | nil => rfl
    | cons c r' => simp [List.takeWhile_cons, h2 c r' rfl]
  | cons d ds' ih =>
    have hd := h d (List.mem_cons_self d ds')
    simp [List.takeWhile_cons, hd, ih (fun c hc => h c (List.mem_cons_of_mem _ hc))]

theorem dropWhile_digits_append (ds rest : Chars) (h : ∀ c ∈ ds, c.isDigit = true)
    (h2 : ∀ c r', rest = c :: r' → c.isDigit = false) :
    (ds ++ rest).dropWhile Char.isDigit = rest := by
  induction ds with
  | nil =>
    cases rest with
    | nil => rfl
    | cons c r' => simp [List.dropWhile_cons, h2 c r' rfl]
  | cons d ds' ih =>
    have hd := h d (List.mem_cons_self d ds')
    simp [List.dropWhile_cons, hd, ih (fun c hc => h c (List.mem_cons_of_mem _ hc))]

theorem spanDigits_append (ds rest : Chars) (h : ∀ c ∈ ds, c.isDigit = true)
    (h2 : ∀ c r', rest = c :: r' → c.isDigit = false) :
    spanDigits (ds ++ rest) = (ds, rest) := by
  unfold spanDigits
  rw [takeWhile_digits_append ds rest h h2, dropWhile_digits_append ds rest h h2]

theorem spanDigits_all (ds : Chars) (h : ∀ c ∈ ds, c.isDigit = true) :
    spanDigits ds = (ds, []) := by
  have := spanDigits_append ds [] h (by intro c r' hc; exact absurd hc (by simp))
  simpa using this

theorem trim_eq_self {s : Chars} (h : ∀ c ∈ s, isPyWs c = false) : trim s = s := by
  unfold trim
  have h1 : s.dropWhile isPyWs = s := by
    cases s with
    | nil => rfl
    | cons c t =>
      rw [List.dropWhile_cons, if_neg (by rw [h c (List.mem_cons_self c t)]; simp)]
  rw [h1]
  have h2 : s.reverse.dropWhile isPyWs = s.reverse := by
    cases hrev : s.reverse with
    | nil => rfl
    | cons c t =>
      have hc : c ∈ s := by
        rw [← List.mem_reverse, hrev]
        exact List.mem_cons_self c t
      rw [List.dropWhile_cons, if_neg (by rw [h c hc]; simp)]
  rw [h2, List.reverse_reverse]

theorem readSign_other {c : Char} {r : Chars} (h1 : c ≠ '+') (h2 : c ≠ '-') :
    readSign (c :: r) = (false, c :: r) := by
  unfold readSign
  split <;> simp_all

theorem readSignKeep_other {c : Char} {r : Chars} (h1 : c ≠ '+') (h2 : c ≠ '-') :
    readSignKeep (c :: r) = ([], c :: r) := by
  unfold readSignKeep
  split <;> simp_all

theorem readDot_other {c : Char} {r : Chars} (h : c ≠ '.') :
    readDot (c :: r) = ([], c :: r) := by
  unfold readDot
  split <;> simp_all

theorem parseFloat_digits (ds : Chars) (h0 : ds ≠ []) (hd : ∀ c ∈ ds, c.isDigit = true) :
    parseFloat ds = some ((digitsVal ds : ℚ)) := by
  unfold parseFloat
  rw [trim_eq_self (fun c hc => digit_not_ws (hd c hc))]
  cases ds with
  | nil => exact absurd rfl h0
  | cons d ds' =>
    have hdd := hd d (List.mem_cons_self d ds')
    simp only [readSign_other (digit_ne hdd (by decide)) (digit_ne hdd (by decide)),
      spanDigits_all _ hd, List.isEmpty_cons, parseFloatExp, applySign]
    rfl

theorem parseFloat_plus_digits (ds : Chars) (h0 : ds ≠ []) (hd : ∀ c ∈ ds, c.isDigit = true) :
    parseFloat ('+' :: ds) = some ((digitsVal ds : ℚ)) := by
  unfold parseFloat
  have hall : ∀ c ∈ '+' :: ds, isPyWs c = false := by
    intro c hc
    rcases List.mem_cons.mp hc with rfl | hc
    · decide
    · exact digit_not_ws (hd c hc)
  rw [trim_eq_self hall]
  cases ds with
  | nil => exact absurd rfl h0
  | cons d ds' =>
    simp only [show readSign ('+' :: d :: ds') = (false, d :: ds') from rfl,
      spanDigits_all _ hd, List.isEmpty_cons, parseFloatExp, applySign]
    rfl

theorem parseFloat_minus_digits (ds : Chars) (h0 : ds ≠ []) (hd : ∀ c ∈ ds, c.isDigit = true) :
    parseFloat ('-' :: ds) = some (-(digitsVal ds : ℚ)) := by
  unfold parseFloat
  have hall : ∀ c ∈ '-' :: ds, isPyWs c = false := by
    intro c hc
    rcases List.mem_cons.mp hc with rfl | hc
    · decide
    · exact digit_not_ws (hd c hc)
  rw [trim_eq_self hall]
  cases ds with
  | nil => exact absurd rfl h0
  | cons d ds' =>
    simp only [show readSign ('-' :: d :: ds') = (true, d :: ds') from rfl,
      spanDigits_all _ hd, List.isEmpty_cons, parseFloatExp, applySign]
    rfl

theorem intStr_neg {i : ℤ} (h : i < 0) : intStr i = '-' :: natStr i.natAbs := by
  unfold intStr
  rw [if_pos (by exact_mod_cast h)]

theorem intStr_nonneg {i : ℤ} (h : 0 ≤ i) : intStr i = natStr i.natAbs := by
  unfold intStr
  rw [if_neg (by omega)]

theorem parseFloat_intStr (i : ℤ) : parseFloat (intStr i) = some ((i : ℚ)) := by
  rcases lt_or_ge i 0 with h | h
  · rw [intStr_neg h, parseFloat_minus_digits _ (natStr_ne_nil _) (natStr_digits _),
      digitsVal_natStr]
    congr 1
    rw [Int.cast_natAbs, abs_of_neg h]
    push_cast
    ring
  · rw [intStr_nonneg h, parseFloat_digits _ (natStr_ne_nil _) (natStr_digits _),
      digitsVal_natStr]
    congr 1
    rw [Int.cast_natAbs, abs_of_nonneg h]

theorem intStr_ne_nil (i : ℤ) : intStr i ≠ [] := by
  rcases lt_or_ge i 0 with h | h
  · rw [intStr_neg h]
    simp
  · rw [intStr_nonneg h]
    exact natStr_ne_nil _

theorem intStr_ne_plus (i : ℤ) : intStr i ≠ ['+'] := by
  rcases lt_or_ge i 0 with h | h
  · rw [intStr_neg h]
    intro hc
    injection hc with h1 _
    exact absurd h1 (by decide)
  · rw [intStr_nonneg h]
    intro hc
    have : '+' ∈ natStr i.natAbs := by
      rw [hc]
      exact List.mem_cons_self _ _
    have := natStr_digits i.natAbs '+' this
    exact absurd this (by decide)

theorem intStr_ne_minus (i : ℤ) : intStr i ≠ ['-'] := by
  rcases lt_or_ge i 0 with h | h
  · rw [intStr_neg h]
    intro hc
    injection hc with _ h2
    exact natStr_ne_nil _ h2
  · rw [intStr_nonneg h]
    intro hc
    have : '-' ∈ natStr i.natAbs := by
      rw [hc]
      exact List.mem_cons_self _ _
    have := natStr_digits i.natAbs '-' this
    exact absurd this (by decide)

theorem intStr_chars (i : ℤ) : ∀ c ∈ intStr i, c.isDigit = true ∨ c = '-' := by
  intro c hc
  rcases lt_or_ge i 0 with h | h
  · rw [intStr_neg h] at hc
    rcases List.mem_cons.mp hc with rfl | hc
    · right; rfl
    · left; exact natStr_digits _ c hc
  · rw [intStr_nonneg h] at hc
    left; exact natStr_digits _ c hc

/-! Regex-model lemmas specialised to the variable string `x`. -/

theorem matchB1_hit (sg ds rest : Chars)
    (hsg : sg = [] ∨ sg = ['+'] ∨ sg = ['-'])
    (hds : ∀ c ∈ ds, c.isDigit = true) :
    matchB1 (toL "x") (sg ++ ds ++ 'x' :: rest) = some (sg ++ ds, rest) := by
  have hx : ∀ c r', 'x' :: rest = c :: r' → c.isDigit = false := by
    intro c r' hc
    injection hc with h1 _
    subst h1
    decide
  have hspan1 : spanDigits (ds ++ 'x' :: rest) = (ds, 'x' :: rest) :=
    spanDigits_append ds _ hds hx
  have hsign : readSignKeep (sg ++ ds ++ 'x' :: rest) = (sg, ds ++ 'x' :: rest) := by
    rcases hsg with rfl | rfl | rfl
    · cases ds with
      | nil => exact readSignKeep_other (by decide) (by decide)
      | cons d ds' =>
        have hd := hds d (List.mem_cons_self d ds')
        exact readSignKeep_other (digit_ne hd (by decide)) (digit_ne hd (by decide))
    · rfl
    · rfl
  unfold matchB1
  simp only [hsign, hspan1, show readDot ('x' :: rest) = ([], 'x' :: rest) from rfl]
  simp only [show spanDigits ('x' :: rest) = ([], 'x' :: rest) from rfl]
  simp only [show List.dropWhile isPyWs ('x' :: rest) = 'x' :: rest from rfl]
  simp only [show startsWith (toL "x") ('x' :: rest) = true from rfl, if_true]
  simp [toL]

theorem matchB1_miss_sign_digits (c : Char) (hc : c = '+' ∨ c = '-') (ds : Chars)
    (hds : ∀ c ∈ ds, c.isDigit = true) :
    matchB1 (toL "x") (c :: ds) = none := by
  have hsp : spanDigits ds = (ds, []) := spanDigits_all ds hds
  have hsign : readSignKeep (c :: ds) = ([c], ds) := by
    rcases hc with rfl | rfl <;> rfl
  unfold matchB1
  simp only [hsign, hsp]
  simp [readDot, spanDigits, startsWith, toL]

theorem matchB1_miss_plus_minus (ds : Chars) :
    matchB1 (toL "x") ('+' :: '-' :: ds) = none := rfl

theorem matchB2_sign_digits (c : Char) (hc : c = '+' ∨ c = '-') (ds : Chars)
    (h0 : ds ≠ []) (hds : ∀ c ∈ ds, c.isDigit = true) :
    matchB2 (c :: ds) = some (c :: ds, []) := by
  have hsp : spanDigits ds = (ds, []) := spanDigits_all ds hds
  have hE : ds.isEmpty = false := by
    cases ds
    · exact absurd rfl h0
    · rfl
  rcases hc with rfl | rfl <;>
    · unfold matchB2
      simp only [hsp, hE]
      simp [readDot, spanDigits]

theorem findallGo_nil (v : Chars) (f : ℕ) : findallGo v f [] = [] := by
  cases f <;> rfl

theorem findallGo_b1 (v : Chars) (f : ℕ) (s g rest : Chars) (hne : s ≠ [])
    (h : matchB1 v s = some (g, rest)) :
    findallGo v (f + 1) s = (g, []) :: findallGo v f rest := by
  cases s with
  | nil => exact absurd rfl hne
  | cons c r => simp [findallGo, h]

theorem findallGo_b2 (v : Chars) (f : ℕ) (s g rest : Chars) (hne : s ≠ [])
    (h1 : matchB1 v s = none) (h2 : matchB2 s = some (g, rest)) :
    findallGo v (f + 1) s = ([], g) :: findallGo v f rest := by
  cases s with
  | nil => exact absurd rfl hne
  | cons c r => simp [findallGo, h1, h2]

theorem findallGo_skip (v : Chars) (f : ℕ) (c : Char) (r : Chars)
    (h1 : matchB1 v (c :: r) = none) (h2 : matchB2 (c :: r) = none) :
    findallGo v (f + 1) (c :: r) = findallGo v f r := by
  simp [findallGo, h1, h2]

theorem findall_pos (f : ℕ) (sg ds db : Chars)
    (hsg : sg = [] ∨ sg = ['+'] ∨ sg = ['-'])
    (hds : ∀ c ∈ ds, c.isDigit = true)
    (hdb0 : db ≠ []) (hdb : ∀ c ∈ db, c.isDigit = true) :
    findallGo (toL "x") (f + 2) (sg ++ ds ++ 'x' :: '+' :: db)
      = [(sg ++ ds, []), ([], '+' :: db)] := by
  have hne : sg ++ ds ++ 'x' :: '+' :: db ≠ [] := by
    rcases hsg with rfl | rfl | rfl <;> simp
  rw [findallGo_b1 _ (f + 1) _ _ _ hne (matchB1_hit sg ds ('+' :: db) hsg hds)]
  rw [findallGo_b2 _ f _ _ _ (by simp) (matchB1_miss_sign_digits '+' (Or.inl rfl) db hdb)
    (matchB2_sign_digits '+' (Or.inl rfl) db hdb0 hdb)]
  rw [findallGo_nil]

theorem findall_negC (f : ℕ) (sg ds db : Chars)
    (hsg : sg = [] ∨ sg = ['+'] ∨ sg = ['-'])
    (hds : ∀ c ∈ ds, c.isDigit = true)
    (hdb0 : db ≠ []) (hdb : ∀ c ∈ db, c.isDigit = true) :
    findallGo (toL "x") (f + 3) (sg ++ ds ++ 'x' :: '+' :: '-' :: db)
      = [(sg ++ ds, []), ([], '-' :: db)] := by
  have hne : sg ++ ds ++ 'x' :: '+' :: '-' :: db ≠ [] := by
    rcases hsg with rfl | rfl | rfl <;> simp
  rw [findallGo_b1 _ (f + 2) _ _ _ hne (matchB1_hit sg ds ('+' :: '-' :: db) hsg hds)]
  rw [findallGo_skip _ (f + 1) '+' ('-' :: db) (matchB1_miss_plus_minus db)
    (show matchB2 ('+' :: '-' :: db) = none from rfl)]
  rw [findallGo_b2 _ f _ _ _ (by simp) (matchB1_miss_sign_digits '-' (Or.inr rfl) db hdb)
    (matchB2_sign_digits '-' (Or.inr rfl) db hdb0 hdb)]
  rw [findallGo_nil]

theorem tally_pair (aS bS : Chars) (qa qb : ℚ)
    (ha0 : aS ≠ []) (haP : aS ≠ ['+']) (haM : aS ≠ ['-'])
    (hpa : parseFloat aS = some qa)
    (hb0 : bS ≠ []) (hpb : parseFloat bS = some qb) :
    tallyMatches [(aS, []), ([], bS)] 0 0 = Except.ok (qa, qb) := by
  have hA : aS.isEmpty = false := by
    cases aS
    · exact absurd rfl ha0
    · rfl
  have hB : bS.isEmpty = false := by
    cases bS
    · exact absurd rfl hb0
    · rfl
  simp [tallyMatches, hA, hB, haP, haM, hpa, hpb]

theorem mem_of_mem_dropWhile {l : Chars} {a : Char} (h : a ∈ l.dropWhile isPyWs) : a ∈ l := by
  induction l with
  | nil => exact h
  | cons c t ih =>
    rw [List.dropWhile_cons] at h
    by_cases hc : isPyWs c = true
    · rw [if_pos hc] at h
      exact List.mem_cons_of_mem _ (ih h)
    · rw [if_neg hc] at h
      exact h

theorem filter_dropWhile_ws (l : Chars) (p : Char → Bool)
    (h : ∀ a ∈ l, isPyWs a = true → p a = false) :
    (l.dropWhile isPyWs).filter p = l.filter p := by
  induction l with
  | nil => rfl
  | cons c t ih =>
    by_cases hc : isPyWs c = true
    · rw [List.dropWhile_cons, if_pos hc,
        ih (fun a ha hws => h a (List.mem_cons_of_mem _ ha) hws),
        List.filter_cons, h c (List.mem_cons_self c t) hc]
      simp
    · rw [List.dropWhile_cons, if_neg hc]

theorem filter_trim (s : Chars) (p : Char → Bool)
    (h : ∀ a ∈ s, isPyWs a = true → p a = false) :
    (trim s).filter p = s.filter p := by
  unfold trim
  have hsub : ∀ a ∈ (s.dropWhile isPyWs).reverse, isPyWs a = true → p a = false := by
    intro a ha hws
    exact h a (mem_of_mem_dropWhile (List.mem_reverse.mp ha)) hws
  rw [List.filter_reverse, filter_dropWhile_ws _ _ hsub, List.filter_reverse,
    filter_dropWhile_ws _ _ h, List.reverse_reverse]

theorem splitOnChar_append (sep : Char) (u v : Chars) (h : ∀ c ∈ u, c ≠ sep) :
    splitOnChar sep (u ++ sep :: v) = u :: splitOnChar sep v := by
  induction u with
  | nil => simp [splitOnChar]
  | cons c u' ih =>
    have hc : c ≠ sep := h c (List.mem_cons_self c u')
    have ih' := ih (fun a ha => h a (List.mem_cons_of_mem _ ha))
    show splitOnChar sep (c :: (u' ++ sep :: v)) = _
    simp only [splitOnChar, if_neg hc, ih']

theorem solveTally_finish (left : Chars) (qa qb : ℚ) (h : qa ≠ 0)
    (htally : tallyMatches (findallGo (toL "x") (left.length + 1) left) 0 0
      = Except.ok (qa, qb)) :
    solveTally (toL "x") left = Except.ok (qa, qb) := by
  unfold solveTally
  rw [htally]
  simp [h]

theorem parseFloat_plus_natStr (b : ℤ) (hb : 0 ≤ b) :
    parseFloat ('+' :: natStr b.natAbs) = some ((b : ℚ)) := by
  rw [parseFloat_plus_digits _ (natStr_ne_nil _) (natStr_digits _), digitsVal_natStr]
  congr 1
  rw [Int.cast_natAbs, abs_of_nonneg hb]

theorem parseFloat_minus_natStr (b : ℤ) (hb : b < 0) :
    parseFloat ('-' :: natStr b.natAbs) = some ((b : ℚ)) := by
  rw [parseFloat_minus_digits _ (natStr_ne_nil _) (natStr_digits _), digitsVal_natStr]
  have : ((b.natAbs : ℚ)) = -(b : ℚ) := by
    rw [Int.cast_natAbs, abs_of_neg hb]
    push_cast
    ring
  rw [this]
  ring_nf

theorem solveTally_template (a b : ℤ) (ha : a ≠ 0) :
    solveTally (toL "x") (intStr a ++ 'x' :: '+' :: intStr b)
      = Except.ok ((a : ℚ), (b : ℚ)) := by
  have hcast : ((a : ℚ)) ≠ 0 := Int.cast_ne_zero.mpr ha
  have hpa := parseFloat_intStr a
  have hanil := intStr_ne_nil a
  have hap := intStr_ne_plus a
  have ham := intStr_ne_minus a
  rcases lt_or_ge a 0 with haS | haS <;> rcases lt_or_ge b 0 with hbS | hbS
  · -- a < 0, b < 0
    rw [intStr_neg haS] at hpa hanil hap ham ⊢
    rw [intStr_neg hbS]
    apply solveTally_finish _ _ _ hcast
    obtain ⟨k, hk⟩ : ∃ k,
        (('-' :: natStr a.natAbs) ++ 'x' :: '+' :: '-' :: natStr b.natAbs).length + 1 = k + 3 :=
      ⟨(natStr a.natAbs).length + (natStr b.natAbs).length + 2, by simp; omega⟩
    have hfind : findallGo (toL "x") (k + 3)
        (('-' :: natStr a.natAbs) ++ 'x' :: '+' :: '-' :: natStr b.natAbs)
        = [('-' :: natStr a.natAbs, []), ([], '-' :: natStr b.natAbs)] := by
      simpa using findall_negC k ['-'] (natStr a.natAbs) (natStr b.natAbs)
        (Or.inr (Or.inr rfl)) (natStr_digits _) (natStr_ne_nil _) (natStr_digits _)
    rw [hk, hfind]
    exact tally_pair _ _ _ _ hanil hap ham hpa (by simp) (parseFloat_minus_natStr b hbS)
  · -- a < 0, 0 ≤ b
    rw [intStr_neg haS] at hpa hanil hap ham ⊢
    rw [intStr_nonneg hbS]
    apply solveTally_finish _ _ _ hcast
    obtain ⟨k, hk⟩ : ∃ k,
        (('-' :: natStr a.natAbs) ++ 'x' :: '+' :: natStr b.natAbs).length + 1 = k + 2 :=
      ⟨(natStr a.natAbs).length + (natStr b.natAbs).length + 2, by simp; omega⟩
    have hfind : findallGo (toL "x") (k + 2)
        (('-' :: natStr a.natAbs) ++ 'x' :: '+' :: natStr b.natAbs)
        = [('-' :: natStr a.natAbs, []), ([], '+' :: natStr b.natAbs)] := by
      simpa using findall_pos k ['-'] (natStr a.natAbs) (natStr b.natAbs)
        (Or.inr (Or.inr rfl)) (natStr_digits _) (natStr_ne_nil _) (natStr_digits _)
    rw [hk, hfind]
    exact tally_pair _ _ _ _ hanil hap ham hpa (by simp) (parseFloat_plus_natStr b hbS)
  · -- 0 ≤ a, b < 0
    rw [intStr_nonneg haS] at hpa hanil hap ham ⊢
    rw [intStr_neg hbS]
    apply solveTally_finish _ _ _ hcast
    obtain ⟨k, hk⟩ : ∃ k,
        (natStr a.natAbs ++ 'x' :: '+' :: '-' :: natStr b.natAbs).length + 1 = k + 3 :=
      ⟨(natStr a.natAbs).length + (natStr b.natAbs).length + 1, by simp; omega⟩
    have hfind : findallGo (toL "x") (k + 3)
        (natStr a.natAbs ++ 'x' :: '+' :: '-' :: natStr b.natAbs)
        = [(natStr a.natAbs, []), ([], '-' :: natStr b.natAbs)] := by
      simpa using findall_negC k [] (natStr a.natAbs) (natStr b.natAbs)
        (Or.inl rfl) (natStr_digits _) (natStr_ne_nil _) (natStr_digits _)
    rw [hk, hfind]
    exact tally_pair _ _ _ _ hanil hap ham hpa (by simp) (parseFloat_minus_natStr b hbS)
  · -- 0 ≤ a, 0 ≤ b
    rw [intStr_nonneg haS] at hpa hanil hap ham ⊢
    rw [intStr_nonneg hbS]
    apply solveTally_finish _ _ _ hcast
    obtain ⟨k, hk⟩ : ∃ k,
        (natStr a.natAbs ++ 'x' :: '+' :: natStr b.natAbs).length + 1 = k + 2 :=
      ⟨(natStr a.natAbs).length + (natStr b.natAbs).length + 1, by simp; omega⟩
    have hfind : findallGo (toL "x") (k + 2)
        (natStr a.natAbs ++ 'x' :: '+' :: natStr b.natAbs)
        = [(natStr a.natAbs, []), ([], '+' :: natStr b.natAbs)] := by
      simpa using findall_pos k [] (natStr a.natAbs) (natStr b.natAbs)
        (Or.inl rfl) (natStr_digits _) (natStr_ne_nil _) (natStr_digits _)
    rw [hk, hfind]
    exact tally_pair _ _ _ _ hanil hap ham hpa (by simp) (parseFloat_plus_natStr b hbS)

theorem solveCore_eq_of_split (eq vr l r : Chars) (h : splitOnChar '=' eq = [l, r]) :
    solveCore eq vr = solveLR (trim l) (trim r) vr := by
  unfold solveCore
  rw [h]

unseal Rat.add Rat.mul Rat.inv Rat.sub in
theorem solveCore_template (a b : ℤ) (ha : a ≠ 0) :
    solveCore (intStr a ++ toL "x + " ++ intStr b ++ toL " = 0") (toL "x")
      = Except.ok (-(b : ℚ) / (a : ℚ)) := by
  have hcast : ((a : ℚ)) ≠ 0 := Int.cast_ne_zero.mpr ha
  have hA : ∀ c ∈ intStr a, c ≠ '=' := by
    intro c hc
    rcases intStr_chars a c hc with hd | rfl
    · exact digit_ne hd (by decide)
    · decide
  have hB : ∀ c ∈ intStr b, c ≠ '=' := by
    intro c hc
    rcases intStr_chars b c hc with hd | rfl
    · exact digit_ne hd (by decide)
    · decide
  have hchars : ∀ c ∈ intStr a ++ 'x' :: ' ' :: '+' :: ' ' :: (intStr b ++ [' ']), c ≠ '=' := by
    intro c hc
    simp only [List.mem_append, List.mem_cons, List.not_mem_nil, or_false] at hc
    rcases hc with hc | rfl | rfl | rfl | rfl | hc | rfl
    · exact hA c hc
    · decide
    · decide
    · decide
    · decide
    · exact hB c hc
    · decide
  have hsplit : splitOnChar '=' (intStr a ++ toL "x + " ++ intStr b ++ toL " = 0")
      = [intStr a ++ 'x' :: ' ' :: '+' :: ' ' :: (intStr b ++ [' ']), [' ', '0']] := by
    rw [show toL "x + " = ['x', ' ', '+', ' '] from rfl,
      show toL " = 0" = [' ', '=', ' ', '0'] from rfl]
    have hre : intStr a ++ ['x', ' ', '+', ' '] ++ intStr b ++ [' ', '=', ' ', '0']
        = (intStr a ++ 'x' :: ' ' :: '+' :: ' ' :: (intStr b ++ [' '])) ++ '=' :: [' ', '0'] := by
      simp
    rw [hre, splitOnChar_append '=' _ [' ', '0'] hchars]
    rfl
  rw [solveCore_eq_of_split _ _ _ _ hsplit]
  unfold solveLR
  have hws : ∀ c ∈ intStr a ++ 'x' :: ' ' :: '+' :: ' ' :: (intStr b ++ [' ']),
      isPyWs c = true → ((c ≠ ' ' : Bool)) = false := by
    intro c hc hcw
    have hsp : c = ' ' := by
      simp only [List.mem_append, List.mem_cons, List.not_mem_nil, or_false] at hc
      rcases hc with hc | rfl | rfl | rfl | rfl | hc | rfl
      · rcases intStr_chars a c hc with hd | rfl
        · rw [digit_not_ws hd] at hcw
          exact absurd hcw (by simp)
        · exact absurd hcw (by decide)
      · exact absurd hcw (by decide)
      · rfl
      · exact absurd hcw (by decide)
      · rfl
      · rcases intStr_chars b c hc with hd | rfl
        · rw [digit_not_ws hd] at hcw
          exact absurd hcw (by simp)
        · exact absurd hcw (by decide)
      · rfl
    subst hsp
    decide
  have hA2 : ∀ c ∈ intStr a, ((c ≠ ' ' : Bool)) = true := by
    intro c hc
    rcases intStr_chars a c hc with hd | rfl
    · simpa using digit_ne hd (by decide)
    · decide
  have hB2 : ∀ c ∈ intStr b, ((c ≠ ' ' : Bool)) = true := by
    intro c hc
    rcases intStr_chars b c hc with hd | rfl
    · simpa using digit_ne hd (by decide)
    · decide
  have hfil : (trim (intStr a ++ 'x' :: ' ' :: '+' :: ' ' :: (intStr b ++ [' ']))).filter
      (fun c => c ≠ ' ') = intStr a ++ 'x' :: '+' :: intStr b := by
    rw [filter_trim _ _ hws,
      show (intStr a ++ 'x' :: ' ' :: '+' :: ' ' :: (intStr b ++ [' ']))
        = intStr a ++ (['x', ' ', '+', ' '] ++ (intStr b ++ [' '])) from by simp,
      List.filter_append, List.filter_append, List.filter_eq_self.mpr hA2,
      List.filter_append, List.filter_eq_self.mpr hB2]
    simp [List.filter_cons]
  rw [hfil, solveTally_template a b ha]
  have hrv : evaluate_simple_expression (trim [' ', '0']) = 0 := by rfl
  simp [hrv, hcast]

unseal Rat.add Rat.mul Rat.inv Rat.sub in
/-- C7: for every integer coefficient a different from zero and integer
constant b, solving the equation text rendered from the template
`ax + b = 0` (with Python integer formatting) succeeds and returns
exactly -b/a, and the spec's example `2x + 3 = 7` solves to x = 2.  The
rational model is exact, so the floating-point tolerance of the claim is
met with equality. -/
theorem c7_theorem :
    (∀ a b : ℤ, a ≠ 0 →
      (solve_linear_equation (intStr a ++ toL "x + " ++ intStr b ++ toL " = 0")
          (toL "x")).operation = "linear_equation" ∧
      (solve_linear_equation (intStr a ++ toL "x + " ++ intStr b ++ toL " = 0")
          (toL "x")).result = RVal.num (-(b : ℚ) / (a : ℚ)) ∧
      (solve_linear_equation (intStr a ++ toL "x + " ++ intStr b ++ toL " = 0")
          (toL "x")).error = none) ∧
    (solve_linear_equation (toL "2x + 3 = 7") (toL "x")).operation = "linear_equation" ∧
    (solve_linear_equation (toL "2x + 3 = 7") (toL "x")).result = RVal.num 2 ∧
    (solve_linear_equation (toL "2x + 3 = 7") (toL "x")).error = none := by
  refine ⟨?_, rfl, rfl, rfl⟩
  intro a b ha
  unfold solve_linear_equation
  rw [solveCore_template a b ha]
  exact ⟨rfl, rfl, rfl⟩

/-- C7 witness: the template instantiated at a = 2, b = 3, i.e. the
equation `2x + 3 = 0`, whose solution is -3/2. -/
theorem c7_witness :
    (solve_linear_equation (intStr 2 ++ toL "x + " ++ intStr 3 ++ toL " = 0")
        (toL "x")).result = RVal.num (-((3 : ℤ) : ℚ) / ((2 : ℤ) : ℚ)) :=
  ((c7_theorem.1 2 3 (by decide)).2).1
